import Mathlib

/-!
# Owie BMS relay glue (`src/bms_main.cpp`)

A shallow embedding of the translation unit `bms_main.cpp`.

The unit owns very little state of its own: two function-local statics
(`ledState`, `unknownData`) and the externally owned `Settings` message.
Everything else it does is a call into a collaborator (the Arduino core, the
`BmsRelay` object, the network layer).  The embedding therefore threads a
`World` value that holds the settings, the two statics and the ordered trace
of collaborator calls issued so far; every statement of the source that calls
out appends one `Call` to that trace.

Machine integers: `uint8_t` is `Fin 256` (arithmetic wraps modulo 256),
the `uint32_t` serial constant is a `Nat` literal, and the signed settings
fields are `Int`.
-/

namespace Owie

/-- The C++ type `uint8_t`. -/
abbrev Byte := Fin 256

/-- Source line 13: `#define TX_INPUT_PIN 4`. -/
def TX_INPUT_PIN : Nat := 4

/-- Source line 15: `#define TX_INVERSE_OUT_PIN 5`. -/
def TX_INVERSE_OUT_PIN : Nat := 5

/-- Board-support constants that the Arduino core headers provide and that
this translation unit only uses: the pin number `LED_BUILTIN` and the mapping
`digitalPinToInterrupt`.  They are taken as parameters. -/
structure Board where
  LED_BUILTIN : Nat
  digitalPinToInterrupt : Nat → Nat

/-- Second argument of the Arduino call `pinMode`. -/
inductive PinDirection where
  | INPUT
  | OUTPUT
deriving DecidableEq, Repr

/-- Third argument of the Arduino call `attachInterrupt`. -/
inductive EdgeMode where
  | RISING
  | FALLING
deriving DecidableEq, Repr

/-- The two interrupt service routines defined in the anonymous namespace
(source lines 21 and 22), as values that can be handed to `attachInterrupt`. -/
inductive Isr where
  | txPinRiseInterrupt
  | txPinFallInterrupt
deriving DecidableEq, Repr

/-- The member `Settings->battery_state` with the four fields the source reads
(lines 71 to 76). -/
structure BatteryState where
  bottom_milliamp_seconds : Int
  current_milliamp_seconds : Int
  bottom_soc : Int
  top_soc : Int
deriving DecidableEq, Repr

/-- The persisted settings message behind the global pointer `Settings`, with
the fields this translation unit mentions.  `graceful_shutdown_count` occurs
only inside the disabled power-off callback (source line 85). -/
structure SettingsMsg where
  is_locked : Bool
  has_battery_state : Bool
  battery_state : BatteryState
  bms_battery_type_override : Int
  graceful_shutdown_count : Int
deriving DecidableEq, Repr

/-- The struct `FuelGaugeState` as filled in on source lines 70 to 76. -/
structure FuelGaugeState where
  bottomMilliampSeconds : Int
  currentMilliampSeconds : Int
  bottomSoc : Int
  topSoc : Int
deriving DecidableEq, Repr

/-- What the received-packet callback reads from its `Packet *` argument:
the bytes at `packet->start()` and the value of `packet->len()`. -/
structure Packet where
  start : List Byte
  len : Nat
deriving DecidableEq, Repr

/-- One call from this translation unit into a collaborator.  A pointer plus
length argument pair is recorded as the bytes the pointer addresses together
with the length that was passed. -/
inductive Call where
  | newBmsRelay
  | serialBegin (baud : Nat)
  | serialWrite (b : Byte)
  | digitalWrite (pin : Nat) (val : Byte)
  | pinMode (pin : Nat) (mode : PinDirection)
  | attachInterrupt (interruptNum : Nat) (isr : Isr) (mode : EdgeMode)
  | addReceivedPacketCallback
  | setUnknownDataCallback
  | restoreState (state : FuelGaugeState)
  | setBMSBatteryTypeOverride (type : Int)
  | setBMSSerialOverride (serial : Nat)
  | setupWifi
  | setupWebServer
  | postRecurringTask
  | streamBMSPacket (data : List Byte) (len : Nat)
  | saveSettings
deriving DecidableEq, Repr

/-- Program state visible to `bms_main.cpp`: the settings message, the two
function-local statics and the trace of collaborator calls, oldest first. -/
structure World where
  settings : SettingsMsg
  ledState : Byte
  unknownData : List Byte
  calls : List Call
deriving DecidableEq, Repr

/-- State at program start: the statics carry their initialisers
(`ledState = 0` on line 55, `unknownData = {0}` on line 61) and nothing has
been called yet. -/
def World.boot (s : SettingsMsg) : World :=
  { settings := s, ledState := 0, unknownData := [0], calls := [] }

/-- Append one collaborator call to the trace. -/
def emit (c : Call) (w : World) : World :=
  { w with calls := w.calls ++ [c] }

/-- Source line 21: `digitalWrite(TX_INVERSE_OUT_PIN, 0)`. -/
def txPinRiseInterrupt (w : World) : World :=
  emit (Call.digitalWrite TX_INVERSE_OUT_PIN 0) w

/-- Source line 22: `digitalWrite(TX_INVERSE_OUT_PIN, 1)`. -/
def txPinFallInterrupt (w : World) : World :=
  emit (Call.digitalWrite TX_INVERSE_OUT_PIN 1) w

/-- Body of an interrupt service routine value. -/
def runIsr : Isr → World → World
  | Isr.txPinRiseInterrupt => txPinRiseInterrupt
  | Isr.txPinFallInterrupt => txPinFallInterrupt

/-- The write-one-byte lambda handed to the `BmsRelay` constructor
(source lines 33 to 38). -/
def writeByte (b : Byte) (w : World) : World :=
  if !w.settings.is_locked then
    emit (Call.serialWrite b) w
  else
    w

/-- The received-packet lambda (source lines 54 to 59). -/
def receivedPacketCallback (board : Board) (packet : Packet) (w : World) : World :=
  let w := emit (Call.digitalWrite board.LED_BUILTIN w.ledState) w
  let w := { w with ledState := 1 - w.ledState }
  emit (Call.streamBMSPacket packet.start packet.len) w

/-- The unknown-data lambda (source lines 60 to 67). -/
def unknownDataCallback (b : Byte) (w : World) : World :=
  if w.unknownData.length > 128 then
    w
  else
    let w := { w with unknownData := w.unknownData ++ [b] }
    emit (Call.streamBMSPacket w.unknownData w.unknownData.length) w

/-- The function `bms_setup` (source lines 31 to 103), statement by statement. -/
def bms_setup (board : Board) (w : World) : World :=
  let w := emit Call.newBmsRelay w
  let w := emit (Call.serialBegin 115200) w
  let w := emit (Call.digitalWrite TX_INVERSE_OUT_PIN 0) w
  let w := emit (Call.pinMode TX_INVERSE_OUT_PIN PinDirection.OUTPUT) w
  let w := emit (Call.pinMode TX_INPUT_PIN PinDirection.INPUT) w
  let w := emit (Call.pinMode board.LED_BUILTIN PinDirection.OUTPUT) w
  let w := emit (Call.attachInterrupt (board.digitalPinToInterrupt TX_INPUT_PIN)
    Isr.txPinRiseInterrupt EdgeMode.RISING) w
  let w := emit (Call.attachInterrupt (board.digitalPinToInterrupt TX_INPUT_PIN)
    Isr.txPinFallInterrupt EdgeMode.FALLING) w
  let w := emit Call.addReceivedPacketCallback w
  let w := emit Call.setUnknownDataCallback w
  let w :=
    if w.settings.has_battery_state then
      let gaugeState : FuelGaugeState :=
        { bottomMilliampSeconds := w.settings.battery_state.bottom_milliamp_seconds
          currentMilliampSeconds := w.settings.battery_state.current_milliamp_seconds
          bottomSoc := w.settings.battery_state.bottom_soc
          topSoc := w.settings.battery_state.top_soc }
      emit (Call.restoreState gaugeState) w
    else
      w
  let w :=
    if w.settings.bms_battery_type_override > 0 then
      emit (Call.setBMSBatteryTypeOverride w.settings.bms_battery_type_override) w
    else
      w
  let w := emit (Call.setBMSSerialOverride 0xFFABCDEF) w
  let w := emit Call.setupWifi w
  let w := emit Call.setupWebServer w
  emit Call.postRecurringTask w

/-- One invocation, by the relay, of one of the three lambdas that
`bms_setup` registers. -/
inductive Op where
  | write (b : Byte)
  | receivedPacket (packet : Packet)
  | unknownData (b : Byte)
deriving DecidableEq, Repr

/-- Effect of one lambda invocation. -/
def Op.step (board : Board) : Op → World → World
  | Op.write b => writeByte b
  | Op.receivedPacket p => receivedPacketCallback board p
  | Op.unknownData b => unknownDataCallback b

/-- Effect of a sequence of lambda invocations, first element first. -/
def runOps (board : Board) (ops : List Op) (w : World) : World :=
  ops.foldl (fun acc op => op.step board acc) w

/-- Hand the bytes `bs` to the write lambda one at a time. -/
def writeAll (bs : List Byte) (w : World) : World :=
  bs.foldl (fun acc b => writeByte b acc) w

/-- Deliver the bytes `bs` to the unknown-data lambda one at a time. -/
def feedUnknown (bs : List Byte) (w : World) : World :=
  bs.foldl (fun acc b => unknownDataCallback b acc) w

/-! ## Observations on the call trace -/

/-- Bytes written to the serial port, in order. -/
def serialOut (cs : List Call) : List Byte :=
  cs.filterMap fun c =>
    match c with
    | Call.serialWrite b => some b
    | _ => none

/-- All pin-level writes, in order, as pin and value. -/
def pinWrites (cs : List Call) : List (Nat × Byte) :=
  cs.filterMap fun c =>
    match c with
    | Call.digitalWrite pin val => some (pin, val)
    | _ => none

/-- Level last written to `pin`, if it was ever written. -/
def pinLevel (cs : List Call) (pin : Nat) : Option Byte :=
  (((pinWrites cs).filter fun pv => pv.1 == pin).map fun pv => pv.2).getLast?

/-- Arguments of the monitoring-sink calls, in order. -/
def sinkCalls (cs : List Call) : List (List Byte × Nat) :=
  cs.filterMap fun c =>
    match c with
    | Call.streamBMSPacket data len => some (data, len)
    | _ => none

/-- Arguments of the `restoreState` calls, in order. -/
def restoreStateCalls (cs : List Call) : List FuelGaugeState :=
  cs.filterMap fun c =>
    match c with
    | Call.restoreState st => some st
    | _ => none

/-- Arguments of the `setBMSBatteryTypeOverride` calls, in order. -/
def batteryTypeOverrideCalls (cs : List Call) : List Int :=
  cs.filterMap fun c =>
    match c with
    | Call.setBMSBatteryTypeOverride v => some v
    | _ => none

/-- Arguments of the `setBMSSerialOverride` calls, in order. -/
def serialOverrideCalls (cs : List Call) : List Nat :=
  cs.filterMap fun c =>
    match c with
    | Call.setBMSSerialOverride v => some v
    | _ => none

/-- Arguments of the `attachInterrupt` calls, in order. -/
def attachInterruptCalls (cs : List Call) : List (Nat × Isr × EdgeMode) :=
  cs.filterMap fun c =>
    match c with
    | Call.attachInterrupt n isr mode => some (n, isr, mode)
    | _ => none

/-- Input-pin level right after a transition of the given kind: high (1)
after a rising edge, low (0) after a falling edge. -/
def EdgeMode.inputLevel : EdgeMode → Byte
  | EdgeMode.RISING => 1
  | EdgeMode.FALLING => 0

/-- Logical inverse of a two-level pin value. -/
def invertLevel (v : Byte) : Byte :=
  if v = 0 then 1 else 0

/-- The routine that `bms_setup` passes to `attachInterrupt` together with the
given edge mode (source lines 49 to 52). -/
def EdgeMode.handler : EdgeMode → Isr
  | EdgeMode.RISING => Isr.txPinRiseInterrupt
  | EdgeMode.FALLING => Isr.txPinFallInterrupt

/-- A concrete board: pin 2 carries the LED and interrupt numbers equal pin
numbers. -/
def sampleBoard : Board :=
  { LED_BUILTIN := 2, digitalPinToInterrupt := fun p => p }

/-- A concrete settings message: unlocked, no stored gauge state, no
battery-type override. -/
def sampleSettings : SettingsMsg :=
  { is_locked := false
    has_battery_state := false
    battery_state :=
      { bottom_milliamp_seconds := 0, current_milliamp_seconds := 0,
        bottom_soc := 0, top_soc := 0 }
    bms_battery_type_override := 0
    graceful_shutdown_count := 0 }

/-! ## Basic facts about the embedding -/

@[simp]
theorem emit_settings (c : Call) (w : World) : (emit c w).settings = w.settings := rfl

@[simp]
theorem emit_ledState (c : Call) (w : World) : (emit c w).ledState = w.ledState := rfl

@[simp]
theorem emit_unknownData (c : Call) (w : World) : (emit c w).unknownData = w.unknownData := rfl

@[simp]
theorem emit_calls (c : Call) (w : World) : (emit c w).calls = w.calls ++ [c] := rfl

theorem writeByte_settings (b : Byte) (w : World) : (writeByte b w).settings = w.settings := by
  unfold writeByte
  split <;> simp

theorem writeByte_unknownData (b : Byte) (w : World) :
    (writeByte b w).unknownData = w.unknownData := by
  unfold writeByte
  split <;> simp

theorem unknownDataCallback_settings (b : Byte) (w : World) :
    (unknownDataCallback b w).settings = w.settings := by
  unfold unknownDataCallback
  split <;> simp

theorem receivedPacketCallback_settings (board : Board) (p : Packet) (w : World) :
    (receivedPacketCallback board p w).settings = w.settings := by
  simp [receivedPacketCallback]

theorem receivedPacketCallback_unknownData (board : Board) (p : Packet) (w : World) :
    (receivedPacketCallback board p w).unknownData = w.unknownData := by
  simp [receivedPacketCallback]

theorem bms_setup_settings (board : Board) (w : World) :
    (bms_setup board w).settings = w.settings := by
  unfold bms_setup
  simp only [emit_settings]
  split <;> split <;> simp

theorem bms_setup_unknownData (board : Board) (w : World) :
    (bms_setup board w).unknownData = w.unknownData := by
  unfold bms_setup
  simp only [emit_settings]
  split <;> split <;> simp

theorem bms_setup_ledState (board : Board) (w : World) :
    (bms_setup board w).ledState = w.ledState := by
  unfold bms_setup
  simp only [emit_settings]
  split <;> split <;> simp

/-- The complete call trace of `bms_setup`, in source order. -/
theorem bms_setup_calls (board : Board) (w : World) :
    (bms_setup board w).calls = w.calls ++
      ([Call.newBmsRelay,
        Call.serialBegin 115200,
        Call.digitalWrite TX_INVERSE_OUT_PIN 0,
        Call.pinMode TX_INVERSE_OUT_PIN PinDirection.OUTPUT,
        Call.pinMode TX_INPUT_PIN PinDirection.INPUT,
        Call.pinMode board.LED_BUILTIN PinDirection.OUTPUT,
        Call.attachInterrupt (board.digitalPinToInterrupt TX_INPUT_PIN)
          Isr.txPinRiseInterrupt EdgeMode.RISING,
        Call.attachInterrupt (board.digitalPinToInterrupt TX_INPUT_PIN)
          Isr.txPinFallInterrupt EdgeMode.FALLING,
        Call.addReceivedPacketCallback,
        Call.setUnknownDataCallback]
      ++ (if w.settings.has_battery_state then
            [Call.restoreState
              { bottomMilliampSeconds := w.settings.battery_state.bottom_milliamp_seconds
                currentMilliampSeconds := w.settings.battery_state.current_milliamp_seconds
                bottomSoc := w.settings.battery_state.bottom_soc
                topSoc := w.settings.battery_state.top_soc }]
          else [])
      ++ (if 0 < w.settings.bms_battery_type_override then
            [Call.setBMSBatteryTypeOverride w.settings.bms_battery_type_override]
          else [])
      ++ [Call.setBMSSerialOverride 0xFFABCDEF,
          Call.setupWifi,
          Call.setupWebServer,
          Call.postRecurringTask]) := by
  unfold bms_setup
  simp only [emit_settings]
  by_cases h1 : w.settings.has_battery_state = true <;>
    by_cases h2 : 0 < w.settings.bms_battery_type_override <;>
    simp [h1, h2]

/-- The attach-interrupt calls that `bms_setup` adds to the trace: two, both on
the interrupt number of `TX_INPUT_PIN`, the rising one first. -/
theorem bms_setup_attachInterruptCalls (board : Board) (w : World) :
    attachInterruptCalls (bms_setup board w).calls = attachInterruptCalls w.calls ++
      [(board.digitalPinToInterrupt TX_INPUT_PIN, Isr.txPinRiseInterrupt, EdgeMode.RISING),
       (board.digitalPinToInterrupt TX_INPUT_PIN, Isr.txPinFallInterrupt, EdgeMode.FALLING)] := by
  rw [bms_setup_calls]
  by_cases h1 : w.settings.has_battery_state = true <;>
    by_cases h2 : 0 < w.settings.bms_battery_type_override <;>
    simp [h1, h2, attachInterruptCalls, List.filterMap_append]

/-- The setup routine adds no monitoring-sink call to the trace. -/
theorem bms_setup_sinkCalls (board : Board) (w : World) :
    sinkCalls (bms_setup board w).calls = sinkCalls w.calls := by
  rw [bms_setup_calls]
  by_cases h1 : w.settings.has_battery_state = true <;>
    by_cases h2 : 0 < w.settings.bms_battery_type_override <;>
    simp [h1, h2, sinkCalls, List.filterMap_append]

/-- The setup routine adds no settings save to the trace. -/
theorem bms_setup_saveSettings (board : Board) (w : World) :
    Call.saveSettings ∈ (bms_setup board w).calls ↔ Call.saveSettings ∈ w.calls := by
  rw [bms_setup_calls]
  by_cases h1 : w.settings.has_battery_state = true <;>
    by_cases h2 : 0 < w.settings.bms_battery_type_override <;>
    simp [h1, h2]

/-! ## Lock policy of the write lambda -/

theorem serialOut_append (xs ys : List Call) :
    serialOut (xs ++ ys) = serialOut xs ++ serialOut ys := by
  simp [serialOut, List.filterMap_append]

theorem writeByte_locked (b : Byte) (w : World) (h : w.settings.is_locked = true) :
    writeByte b w = w := by
  simp [writeByte, h]

theorem writeByte_unlocked (b : Byte) (w : World) (h : w.settings.is_locked = false) :
    writeByte b w = emit (Call.serialWrite b) w := by
  simp [writeByte, h]

theorem writeAll_locked (bs : List Byte) (w : World) (h : w.settings.is_locked = true) :
    writeAll bs w = w := by
  induction bs with
  | nil => rfl
  | cons b bs ih =>
    show writeAll bs (writeByte b w) = w
    rw [writeByte_locked b w h]
    exact ih

theorem writeAll_unlocked (bs : List Byte) (w : World) (h : w.settings.is_locked = false) :
    (writeAll bs w).calls = w.calls ++ bs.map Call.serialWrite := by
  induction bs generalizing w with
  | nil => simp [writeAll]
  | cons b bs ih =>
    show (writeAll bs (writeByte b w)).calls = _
    rw [ih (writeByte b w) (by rw [writeByte_settings]; exact h), writeByte_unlocked b w h]
    simp

theorem serialOut_map_serialWrite (bs : List Byte) :
    serialOut (bs.map Call.serialWrite) = bs := by
  induction bs with
  | nil => rfl
  | cons b bs ih =>
    simp only [serialOut, List.map_cons, List.filterMap_cons] at ih ⊢
    rw [ih]

/-- C1: for every byte `b` and every state (hence every settings value), the
write lambda issues exactly the one call `Serial.write(b)` when
`is_locked` is false and does nothing at all when it is true; for a sequence of
bytes the serial output is unchanged while locked and is extended by exactly
that sequence, in order, while unlocked. -/
theorem writeByte_lock_policy (b : Byte) (bs : List Byte) (w : World) :
    writeByte b w
        = (if w.settings.is_locked = true then w
           else { w with calls := w.calls ++ [Call.serialWrite b] })
      ∧ serialOut (writeByte b w).calls
        = (if w.settings.is_locked = true then serialOut w.calls
           else serialOut w.calls ++ [b])
      ∧ (writeAll bs w).calls
        = (if w.settings.is_locked = true then w.calls
           else w.calls ++ bs.map Call.serialWrite)
      ∧ serialOut (writeAll bs w).calls
        = (if w.settings.is_locked = true then serialOut w.calls
           else serialOut w.calls ++ bs) := by
  by_cases h : w.settings.is_locked = true
  · simp only [h, if_true, writeByte_locked b w h, writeAll_locked bs w h, and_self]
  · have hf : w.settings.is_locked = false := by simpa using h
    rw [writeByte_unlocked b w hf, writeAll_unlocked bs w hf, serialOut_append,
      serialOut_map_serialWrite, emit_calls, serialOut_append, hf]
    refine ⟨rfl, ?_, ?_, ?_⟩
    · simp [serialOut]
    · simp
    · simp

/-! ## Line inverter -/

theorem pinWrites_append (xs ys : List Call) :
    pinWrites (xs ++ ys) = pinWrites xs ++ pinWrites ys := by
  simp [pinWrites, List.filterMap_append]

theorem pinLevel_after_write (cs : List Call) (pin : Nat) (val : Byte) :
    pinLevel (cs ++ [Call.digitalWrite pin val]) pin = some val := by
  simp [pinLevel, pinWrites_append, pinWrites, List.filter_append]

/-- C2: the rising-edge routine issues exactly one collaborator call, the
pin-level write of value 0 to `TX_INVERSE_OUT_PIN`, and changes nothing else;
the falling-edge routine likewise with value 1.  Hence the list of pin-level
writes grows by exactly that one entry, and the level of the output pin right
after the routine bound to an edge is the inverse of the input level that the
edge produced. -/
theorem txPin_interrupts_single_inverse_write (w : World) :
    txPinRiseInterrupt w
        = { w with calls := w.calls ++ [Call.digitalWrite TX_INVERSE_OUT_PIN 0] }
      ∧ txPinFallInterrupt w
        = { w with calls := w.calls ++ [Call.digitalWrite TX_INVERSE_OUT_PIN 1] }
      ∧ pinWrites (txPinRiseInterrupt w).calls
        = pinWrites w.calls ++ [(TX_INVERSE_OUT_PIN, 0)]
      ∧ pinWrites (txPinFallInterrupt w).calls
        = pinWrites w.calls ++ [(TX_INVERSE_OUT_PIN, 1)]
      ∧ ∀ mode : EdgeMode,
          pinLevel (runIsr mode.handler w).calls TX_INVERSE_OUT_PIN
            = some (invertLevel mode.inputLevel) := by
  refine ⟨rfl, rfl, ?_, ?_, ?_⟩
  · simp [txPinRiseInterrupt, pinWrites_append, pinWrites]
  · simp [txPinFallInterrupt, pinWrites_append, pinWrites]
  · intro mode
    cases mode
    · show pinLevel (w.calls ++ [Call.digitalWrite TX_INVERSE_OUT_PIN 0]) TX_INVERSE_OUT_PIN = _
      rw [pinLevel_after_write]
      rfl
    · show pinLevel (w.calls ++ [Call.digitalWrite TX_INVERSE_OUT_PIN 1]) TX_INVERSE_OUT_PIN = _
      rw [pinLevel_after_write]
      rfl

/-! ## Configuration applied by `bms_setup` -/

/-- C5, as the claim states it, fails: for a settings message that supplies no
serial number (no settings message can: the routine reads no such field),
`bms_setup` still sets a serial-number override. -/
theorem serial_override_set_without_configuration :
    serialOverrideCalls (bms_setup sampleBoard (World.boot sampleSettings)).calls
        = [0xFFABCDEF]
      ∧ serialOverrideCalls (bms_setup sampleBoard (World.boot sampleSettings)).calls ≠ [] := by
  decide

/-- C5 (amended): for every settings value, `bms_setup` calls
`setBMSSerialOverride` exactly once, with the fixed value `0xFFABCDEF`; the
value does not depend on the settings. -/
theorem bms_setup_serial_override_fixed (board : Board) (w : World) :
    serialOverrideCalls (bms_setup board w).calls
      = serialOverrideCalls w.calls ++ [0xFFABCDEF] := by
  rw [bms_setup_calls]
  by_cases h1 : w.settings.has_battery_state = true <;>
    by_cases h2 : 0 < w.settings.bms_battery_type_override <;>
    simp [h1, h2, serialOverrideCalls, List.filterMap_append]

/-- C6: `bms_setup` calls `setBMSBatteryTypeOverride` exactly when
`bms_battery_type_override` is strictly positive, once, with exactly that
value; for a zero or negative value it issues no such call. -/
theorem bms_setup_battery_type_override (board : Board) (w : World) :
    batteryTypeOverrideCalls (bms_setup board w).calls
      = batteryTypeOverrideCalls w.calls ++
          (if 0 < w.settings.bms_battery_type_override
           then [w.settings.bms_battery_type_override] else []) := by
  rw [bms_setup_calls]
  by_cases h1 : w.settings.has_battery_state = true <;>
    by_cases h2 : 0 < w.settings.bms_battery_type_override <;>
    simp [h1, h2, batteryTypeOverrideCalls, List.filterMap_append]

/-- C7: `bms_setup` calls `restoreState` exactly when `has_battery_state` is
true, once, and the state passed carries the four persisted fields field by
field; when the flag is false it issues no such call. -/
theorem bms_setup_restoreState (board : Board) (w : World) :
    restoreStateCalls (bms_setup board w).calls
      = restoreStateCalls w.calls ++
          (if w.settings.has_battery_state = true
           then [{ bottomMilliampSeconds := w.settings.battery_state.bottom_milliamp_seconds
                   currentMilliampSeconds := w.settings.battery_state.current_milliamp_seconds
                   bottomSoc := w.settings.battery_state.bottom_soc
                   topSoc := w.settings.battery_state.top_soc }]
           else []) := by
  rw [bms_setup_calls]
  by_cases h1 : w.settings.has_battery_state = true <;>
    by_cases h2 : 0 < w.settings.bms_battery_type_override <;>
    simp [h1, h2, restoreStateCalls, List.filterMap_append]

/-! ## The unknown-data buffer -/

theorem sinkCalls_append (xs ys : List Call) :
    sinkCalls (xs ++ ys) = sinkCalls xs ++ sinkCalls ys := by
  simp [sinkCalls, List.filterMap_append]

theorem unknownDataCallback_full (b : Byte) (w : World) (h : 128 < w.unknownData.length) :
    unknownDataCallback b w = w := by
  simp [unknownDataCallback, h]

theorem unknownDataCallback_room (b : Byte) (w : World) (h : w.unknownData.length ≤ 128) :
    unknownDataCallback b w
      = { w with
          unknownData := w.unknownData ++ [b]
          calls := w.calls ++
            [Call.streamBMSPacket (w.unknownData ++ [b]) (w.unknownData.length + 1)] } := by
  have h2 : ¬ 128 < w.unknownData.length := by omega
  simp [unknownDataCallback, h2, emit]

theorem feedUnknown_cons (b : Byte) (bs : List Byte) (w : World) :
    feedUnknown (b :: bs) w = feedUnknown bs (unknownDataCallback b w) := rfl

/-- Contents of the buffer after a run of deliveries: the old contents followed
by as many of the delivered bytes as fit below 129. -/
theorem feedUnknown_unknownData (bs : List Byte) (w : World) :
    (feedUnknown bs w).unknownData
      = w.unknownData ++ bs.take (129 - w.unknownData.length) := by
  induction bs generalizing w with
  | nil => simp [feedUnknown]
  | cons b bs ih =>
    rw [feedUnknown_cons, ih]
    by_cases h : 128 < w.unknownData.length
    · rw [unknownDataCallback_full b w h]
      have h0 : 129 - w.unknownData.length = 0 := by omega
      simp [h0]
    · have hle : w.unknownData.length ≤ 128 := by omega
      rw [unknownDataCallback_room b w hle]
      have h1 : 129 - w.unknownData.length = (128 - w.unknownData.length) + 1 := by omega
      have h2 : 129 - (w.unknownData.length + 1) = 128 - w.unknownData.length := by omega
      simp [h1, h2]

/-- Sink calls issued by a run of deliveries that all fit into the buffer. -/
theorem feedUnknown_sinkCalls (bs : List Byte) (w : World)
    (h : w.unknownData.length + bs.length ≤ 129) :
    sinkCalls (feedUnknown bs w).calls
      = sinkCalls w.calls ++
          (List.range bs.length).map fun i =>
            (w.unknownData ++ bs.take (i + 1), w.unknownData.length + (i + 1)) := by
  induction bs generalizing w with
  | nil => simp [feedUnknown]
  | cons b bs ih =>
    have hlen : w.unknownData.length + (bs.length + 1) ≤ 129 := by simpa using h
    have hle : w.unknownData.length ≤ 128 := by omega
    rw [feedUnknown_cons, unknownDataCallback_room b w hle, ih]
    · simp only [sinkCalls_append, List.length_cons, List.range_succ_eq_map, List.map_cons,
        List.map_map, List.append_assoc, List.length_append, List.length_singleton]
      congr 1
      simp only [sinkCalls, List.filterMap_cons, List.filterMap_nil, List.take_succ_cons,
        List.take_zero, List.singleton_append, List.cons.injEq, true_and]
      apply List.map_congr_left
      intro i _
      simp only [Function.comp, List.length_nil, Nat.succ_eq_add_one, Prod.mk.injEq, true_and]
      omega
    · simp only [List.length_append, List.length_singleton]
      omega

/-- Each delivery adds as many sink calls as it adds bytes to the buffer. -/
theorem unknownDataCallback_sink_growth (b : Byte) (w : World) :
    (sinkCalls (unknownDataCallback b w).calls).length + w.unknownData.length
      = (sinkCalls w.calls).length + (unknownDataCallback b w).unknownData.length := by
  by_cases h : 128 < w.unknownData.length
  · rw [unknownDataCallback_full b w h]
  · have hle : w.unknownData.length ≤ 128 := by omega
    rw [unknownDataCallback_room b w hle]
    simp [sinkCalls_append, sinkCalls]
    omega

theorem feedUnknown_sink_growth (bs : List Byte) (w : World) :
    (sinkCalls (feedUnknown bs w).calls).length + w.unknownData.length
      = (sinkCalls w.calls).length + (feedUnknown bs w).unknownData.length := by
  induction bs generalizing w with
  | nil => rfl
  | cons b bs ih =>
    rw [feedUnknown_cons]
    have h1 := ih (unknownDataCallback b w)
    have h2 := unknownDataCallback_sink_growth b w
    omega

theorem step_unknownData_length (board : Board) (op : Op) (w : World) :
    w.unknownData.length ≤ (op.step board w).unknownData.length := by
  cases op with
  | write b => simp [Op.step, writeByte_unknownData]
  | receivedPacket p => simp [Op.step, receivedPacketCallback_unknownData]
  | unknownData b =>
    show _ ≤ (unknownDataCallback b w).unknownData.length
    by_cases h : 128 < w.unknownData.length
    · rw [unknownDataCallback_full b w h]
    · have hle : w.unknownData.length ≤ 128 := by omega
      rw [unknownDataCallback_room b w hle]
      simp

/-- C3, as the claim states it, fails: after 1000 bytes have been delivered
the buffer holds 129 bytes, one more than 128. -/
theorem unknownData_holds_129_after_1000 :
    (feedUnknown (List.replicate 1000 0x55)
        (bms_setup sampleBoard (World.boot sampleSettings))).unknownData.length = 129
      ∧ ¬ (feedUnknown (List.replicate 1000 0x55)
        (bms_setup sampleBoard (World.boot sampleSettings))).unknownData.length ≤ 128 := by
  have h : (feedUnknown (List.replicate 1000 0x55)
      (bms_setup sampleBoard (World.boot sampleSettings))).unknownData.length = 129 := by
    rw [feedUnknown_unknownData, bms_setup_unknownData]
    simp only [World.boot, List.length_append, List.length_take, List.length_replicate,
      List.length_singleton]
    omega
  exact ⟨h, by omega⟩

/-- C3 (amended): for every finite sequence of bytes delivered one at a time
after `bms_setup`, the buffer is the initial byte 0 followed by the first 128
delivered bytes; so it never holds more than 129 bytes, and it holds exactly
129 as soon as 128 or more bytes have been delivered (1000 among them). -/
theorem unknownData_buffer_bound (board : Board) (s : SettingsMsg) (bs : List Byte) :
    (feedUnknown bs (bms_setup board (World.boot s))).unknownData = 0 :: bs.take 128
      ∧ (feedUnknown bs (bms_setup board (World.boot s))).unknownData.length ≤ 129
      ∧ (feedUnknown bs (bms_setup board (World.boot s))).unknownData.length
          = min (bs.length + 1) 129 := by
  have h : (feedUnknown bs (bms_setup board (World.boot s))).unknownData = 0 :: bs.take 128 := by
    rw [feedUnknown_unknownData, bms_setup_unknownData]
    simp [World.boot]
  rw [h]
  simp only [List.length_cons, List.length_take, true_and]
  omega

/-- C4, as the claim states it, fails: after `bms_setup` and 127 deliveries the
buffer holds exactly 128 bytes, so the cap of 128 bytes has been reached; yet
the next invocation, with the byte 0x66, does not leave the buffer unchanged:
it appends the byte (129 bytes held) and calls the monitoring sink once more. -/
theorem unknownData_appended_at_128 :
    (feedUnknown (List.replicate 127 0x55)
        (bms_setup sampleBoard (World.boot sampleSettings))).unknownData.length = 128
      ∧ (unknownDataCallback 0x66 (feedUnknown (List.replicate 127 0x55)
          (bms_setup sampleBoard (World.boot sampleSettings)))).unknownData
        = (feedUnknown (List.replicate 127 0x55)
            (bms_setup sampleBoard (World.boot sampleSettings))).unknownData ++ [0x66]
      ∧ (unknownDataCallback 0x66 (feedUnknown (List.replicate 127 0x55)
          (bms_setup sampleBoard (World.boot sampleSettings)))).unknownData.length = 129
      ∧ unknownDataCallback 0x66 (feedUnknown (List.replicate 127 0x55)
          (bms_setup sampleBoard (World.boot sampleSettings)))
        ≠ feedUnknown (List.replicate 127 0x55)
            (bms_setup sampleBoard (World.boot sampleSettings))
      ∧ (sinkCalls (unknownDataCallback 0x66 (feedUnknown (List.replicate 127 0x55)
          (bms_setup sampleBoard (World.boot sampleSettings)))).calls).length
        = (sinkCalls (feedUnknown (List.replicate 127 0x55)
            (bms_setup sampleBoard (World.boot sampleSettings))).calls).length + 1 := by
  have hlen : (feedUnknown (List.replicate 127 0x55)
      (bms_setup sampleBoard (World.boot sampleSettings))).unknownData.length = 128 := by
    rw [feedUnknown_unknownData, bms_setup_unknownData]
    simp only [World.boot, List.length_append, List.length_take, List.length_replicate,
      List.length_singleton]
    omega
  have hle : (feedUnknown (List.replicate 127 0x55)
      (bms_setup sampleBoard (World.boot sampleSettings))).unknownData.length ≤ 128 := by
    omega
  have hstep := unknownDataCallback_room 0x66 _ hle
  have hbuf : (unknownDataCallback 0x66 (feedUnknown (List.replicate 127 0x55)
      (bms_setup sampleBoard (World.boot sampleSettings)))).unknownData
      = (feedUnknown (List.replicate 127 0x55)
          (bms_setup sampleBoard (World.boot sampleSettings))).unknownData ++ [0x66] := by
    rw [hstep]
  have hlen2 : (unknownDataCallback 0x66 (feedUnknown (List.replicate 127 0x55)
      (bms_setup sampleBoard (World.boot sampleSettings)))).unknownData.length = 129 := by
    rw [hbuf, List.length_append, hlen]
    rfl
  refine ⟨hlen, hbuf, hlen2, ?_, ?_⟩
  · intro heq
    have hcontra := congrArg (fun w => w.unknownData.length) heq
    simp only [hlen, hlen2] at hcontra
    omega
  · have hgrow := unknownDataCallback_sink_growth 0x66 (feedUnknown (List.replicate 127 0x55)
      (bms_setup sampleBoard (World.boot sampleSettings)))
    omega

/-- C4 (amended): one invocation of the unknown-data lambda either appends the
byte and calls the sink once with the whole buffer and its new length (when the
buffer holds at most 128 bytes before the call), or leaves the whole state
unchanged and calls nothing (when it already holds more than 128 bytes, that is
the initial byte 0 plus 128 delivered bytes).  The sink calls it adds are one
per byte of growth: none for a dropped byte, and over any run of deliveries the
number of sink calls added equals the growth of the buffer. -/
theorem unknownDataCallback_append_or_drop (b : Byte) (bs : List Byte) (w : World) :
    ((w.unknownData.length ≤ 128
        ∧ unknownDataCallback b w
          = { w with
              unknownData := w.unknownData ++ [b]
              calls := w.calls ++
                [Call.streamBMSPacket (w.unknownData ++ [b]) (w.unknownData.length + 1)] })
      ∨ (128 < w.unknownData.length ∧ unknownDataCallback b w = w))
      ∧ sinkCalls (unknownDataCallback b w).calls
          = sinkCalls w.calls ++
              (if (unknownDataCallback b w).unknownData = w.unknownData then []
               else [((unknownDataCallback b w).unknownData,
                      (unknownDataCallback b w).unknownData.length)])
      ∧ (sinkCalls (feedUnknown bs w).calls).length + w.unknownData.length
          = (sinkCalls w.calls).length + (feedUnknown bs w).unknownData.length := by
  refine ⟨?_, ?_, feedUnknown_sink_growth bs w⟩
  · by_cases h : 128 < w.unknownData.length
    · exact Or.inr ⟨h, unknownDataCallback_full b w h⟩
    · have hle : w.unknownData.length ≤ 128 := by omega
      exact Or.inl ⟨hle, unknownDataCallback_room b w hle⟩
  · by_cases h : 128 < w.unknownData.length
    · rw [unknownDataCallback_full b w h]
      simp
    · have hle : w.unknownData.length ≤ 128 := by omega
      rw [unknownDataCallback_room b w hle]
      simp [sinkCalls_append, sinkCalls]

/-- C8, as the claim states it, fails: the buffer is not empty before the
first delivery (it holds the byte 0), and after one delivery of the byte 7 the
buffer and the data handed to the sink are the two bytes 0, 7, not the one
byte 7. -/
theorem unknownData_starts_with_zero_byte :
    (bms_setup sampleBoard (World.boot sampleSettings)).unknownData = [0]
      ∧ (bms_setup sampleBoard (World.boot sampleSettings)).unknownData ≠ []
      ∧ (feedUnknown [7] (bms_setup sampleBoard (World.boot sampleSettings))).unknownData
          = [0, 7]
      ∧ (feedUnknown [7] (bms_setup sampleBoard (World.boot sampleSettings))).unknownData
          ≠ [7]
      ∧ sinkCalls (feedUnknown [7] (bms_setup sampleBoard (World.boot sampleSettings))).calls
          = [([0, 7], 2)] := by
  decide

/-- C8 (amended): before the first delivery the buffer holds the single byte 0;
for every sequence of at most 128 delivered bytes the buffer afterwards is 0
followed by exactly those bytes in order, of length one more than their number;
the i-th delivery hands the sink 0 followed by the first i bytes with that
length; and no invocation of any of the three lambdas shortens the buffer. -/
theorem unknownData_append_only (board : Board) (s : SettingsMsg) (bs : List Byte)
    (h : bs.length ≤ 128) :
    (bms_setup board (World.boot s)).unknownData = [0]
      ∧ (feedUnknown bs (bms_setup board (World.boot s))).unknownData = 0 :: bs
      ∧ (feedUnknown bs (bms_setup board (World.boot s))).unknownData.length = bs.length + 1
      ∧ sinkCalls (feedUnknown bs (bms_setup board (World.boot s))).calls
          = (List.range bs.length).map (fun i => (0 :: bs.take (i + 1), i + 2))
      ∧ ∀ (op : Op) (w : World), w.unknownData.length ≤ (op.step board w).unknownData.length := by
  have h0 : (bms_setup board (World.boot s)).unknownData = [0] := by
    rw [bms_setup_unknownData]
    rfl
  have h1 : (feedUnknown bs (bms_setup board (World.boot s))).unknownData = 0 :: bs := by
    rw [feedUnknown_unknownData, h0]
    simp [List.take_of_length_le h]
  refine ⟨h0, h1, by rw [h1]; rfl, ?_, fun op w => step_unknownData_length board op w⟩
  rw [feedUnknown_sinkCalls bs _ (by rw [h0]; simp; omega), bms_setup_sinkCalls, h0]
  simp only [World.boot, sinkCalls, List.filterMap_nil, List.nil_append, List.singleton_append,
    List.length_singleton]
  apply List.map_congr_left
  intro i _
  simp only [Prod.mk.injEq, true_and]
  omega

/-- C8 (amended), instance: three delivered bytes. -/
theorem unknownData_append_only_witness :
    ([1, 2, 3] : List Byte).length ≤ 128
      ∧ (feedUnknown [1, 2, 3] (bms_setup sampleBoard (World.boot sampleSettings))).unknownData
          = [0, 1, 2, 3] :=
  ⟨by decide, (unknownData_append_only sampleBoard sampleSettings [1, 2, 3] (by decide)).2.1⟩

/-! ## The settings are only read -/

theorem step_settings (board : Board) (op : Op) (w : World) :
    (op.step board w).settings = w.settings := by
  cases op with
  | write b => exact writeByte_settings b w
  | receivedPacket p => exact receivedPacketCallback_settings board p w
  | unknownData b => exact unknownDataCallback_settings b w

theorem step_saveSettings (board : Board) (op : Op) (w : World) :
    Call.saveSettings ∈ (op.step board w).calls ↔ Call.saveSettings ∈ w.calls := by
  cases op with
  | write b =>
    show Call.saveSettings ∈ (writeByte b w).calls ↔ _
    unfold writeByte
    split <;> simp
  | receivedPacket p =>
    show Call.saveSettings ∈ (receivedPacketCallback board p w).calls ↔ _
    simp [receivedPacketCallback]
  | unknownData b =>
    show Call.saveSettings ∈ (unknownDataCallback b w).calls ↔ _
    unfold unknownDataCallback
    split <;> simp

theorem runOps_settings (board : Board) (ops : List Op) (w : World) :
    (runOps board ops w).settings = w.settings := by
  induction ops generalizing w with
  | nil => rfl
  | cons op ops ih =>
    show (runOps board ops (op.step board w)).settings = _
    rw [ih, step_settings]

theorem runOps_saveSettings (board : Board) (ops : List Op) (w : World) :
    Call.saveSettings ∈ (runOps board ops w).calls ↔ Call.saveSettings ∈ w.calls := by
  induction ops generalizing w with
  | nil => rfl
  | cons op ops ih =>
    show Call.saveSettings ∈ (runOps board ops (op.step board w)).calls ↔ _
    rw [ih, step_saveSettings]

/-- C10: for every settings value, after `bms_setup` and then any sequence of
invocations of the write lambda, the received-packet lambda and the
unknown-data lambda, the settings message (the lock flag, the stored gauge
state and every other field) equals its initial value, and no call of
`saveSettings` has been issued. -/
theorem settings_only_read (board : Board) (s : SettingsMsg) (ops : List Op) :
    (runOps board ops (bms_setup board (World.boot s))).settings = s
      ∧ (runOps board ops (bms_setup board (World.boot s))).settings.is_locked = s.is_locked
      ∧ (runOps board ops (bms_setup board (World.boot s))).settings.battery_state
          = s.battery_state
      ∧ Call.saveSettings ∉ (runOps board ops (bms_setup board (World.boot s))).calls := by
  have h : (runOps board ops (bms_setup board (World.boot s))).settings = s := by
    rw [runOps_settings, bms_setup_settings]
    rfl
  refine ⟨h, by rw [h], by rw [h], ?_⟩
  rw [runOps_saveSettings, bms_setup_saveSettings]
  simp [World.boot]

end Owie
